import Mathlib

/-!
Verification of the zero-validation and refinement engine of `t_assessing.py`
(`ball_is_small`, `set_precision_bits`, `spacing_est`, `validate_zeta_zero`).

Modelling conventions (shallow embedding):

* python-flint `arb` balls are modelled as midpoint/radius pairs of real
  numbers (`Arb`); Python floats and exact decimal strings are idealized as
  real numbers.  Ball arithmetic performed inline by the script
  (subtraction, multiplication, scalar scaling) is modelled with exact
  midpoint arithmetic and the standard conservative radius propagation,
  i.e. flint's semantics without the (precision-dependent) extra rounding
  slack.
* The external ball-arithmetic backend (spec section 6: the zeta evaluator
  at derivative orders 0/1/2, complex absolute value, complex division) is
  an abstract `Provider` structure; the global working precision `ctx.dps`
  is modelled by threading the current decimal precision explicitly into
  every provider call.  Theorems about the engine are stated for every
  provider, and concrete providers are supplied where a concrete run is
  evaluated.
* `validate_zeta_zero` returns the triple `(zeta_val, zero_likely,
  refined_t)` of the source; `validate_full` is the same computation
  instrumented with run counters (initial/final decimal precision, number
  of provider zeta evaluations, number of refinement iterations entered,
  and the last certified upper bound printed by the script).
-/

/-- A real ball: midpoint plus error radius (python-flint `arb`). -/
structure Arb where
  mid : ℝ
  rad : ℝ

/-- An exact ball with zero radius (an exact scalar or decimal literal
lifted to a ball). -/
def Arb.exact (x : ℝ) : Arb := ⟨x, 0⟩

/-- Ball addition: midpoints add, radii add. -/
def Arb.add (a b : Arb) : Arb := ⟨a.mid + b.mid, a.rad + b.rad⟩

/-- Ball subtraction: midpoints subtract, radii add. -/
def Arb.sub (a b : Arb) : Arb := ⟨a.mid - b.mid, a.rad + b.rad⟩

/-- Ball negation. -/
def Arb.neg (a : Arb) : Arb := ⟨-a.mid, a.rad⟩

/-- Ball multiplication with the standard radius propagation. -/
def Arb.mul (a b : Arb) : Arb :=
  ⟨a.mid * b.mid, |a.mid| * b.rad + |b.mid| * a.rad + a.rad * b.rad⟩

/-- Scaling a ball by an exact scalar (`arb * float` in the source). -/
def Arb.smul (k : ℝ) (a : Arb) : Arb := ⟨k * a.mid, |k| * a.rad⟩

/-- A complex ball: real and imaginary component balls (python-flint `acb`). -/
structure Acb where
  re : Arb
  im : Arb

/-- The complex ball `acb(arb(0), arb(1))`, i.e. the imaginary unit. -/
def Acb.I : Acb := ⟨⟨0, 0⟩, ⟨1, 0⟩⟩

/-- Componentwise complex ball subtraction. -/
def Acb.sub (z w : Acb) : Acb := ⟨Arb.sub z.re w.re, Arb.sub z.im w.im⟩

/-- Complex ball negation. -/
def Acb.neg (z : Acb) : Acb := ⟨Arb.neg z.re, Arb.neg z.im⟩

/-- Complex ball multiplication, componentwise from `Arb` operations. -/
def Acb.mul (z w : Acb) : Acb :=
  ⟨Arb.sub (Arb.mul z.re w.re) (Arb.mul z.im w.im),
   Arb.add (Arb.mul z.re w.im) (Arb.mul z.im w.re)⟩

/-- Scaling a complex ball by an exact real scalar (`2 * acb` in the source). -/
def Acb.smul (k : ℝ) (z : Acb) : Acb := ⟨Arb.smul k z.re, Arb.smul k z.im⟩

/-- Source `ball_is_small(a, thresh)`: true when the radius already covers
the midpoint, or when the certified upper bound is below the threshold. -/
noncomputable def ball_is_small (a : Arb) (thresh : ℝ) : Bool :=
  decide (a.rad ≥ |a.mid| ∨ |a.mid| + a.rad < thresh)

/-- Source `safe_upper(a)`: upper bound of a nonnegative magnitude ball. -/
def safe_upper (a : Arb) : ℝ := a.mid + a.rad

/-- Source `safe_lower_nonneg(a)`: lower bound of a magnitude ball clamped
at zero. -/
noncomputable def safe_lower_nonneg (a : Arb) : ℝ := max 0 (a.mid - a.rad)

/-- Source `spacing_est(t_f)`: local zero-spacing estimate
`2*pi / max(log(max(max(t_f, 10)/(2*pi), e)), 1)`. -/
noncomputable def spacing_est (t_f : ℝ) : ℝ :=
  (2 * Real.pi) / max (Real.log (max (max t_f 10 / (2 * Real.pi)) (Real.exp 1))) 1

/-- Source `set_precision_bits(bits)`: the decimal precision
`ceil(bits * log10(2)) + 20` configured on the backend and returned. -/
noncomputable def set_precision_bits (bits : ℕ) : ℤ :=
  ⌈(bits : ℝ) * Real.logb 10 2⌉ + 20

/-- The external ball-arithmetic backend (python-flint): zeta and its first
derivative, the second derivative, complex absolute value, and complex
division, each at the currently configured decimal precision (passed
explicitly here in place of the global `ctx.dps`). -/
structure Provider where
  zeta12 : ℤ → Acb → Acb × Acb
  zeta2 : ℤ → Acb → Acb
  cabs : ℤ → Acb → Arb
  cdiv : ℤ → Acb → Acb → Acb

/-- The point `acb(arb(sigma), t)` on the vertical line. -/
def vpoint (sigma : ℝ) (t : Arb) : Acb := ⟨Arb.exact sigma, t⟩

/-- Magnitude ball `abs_ball(zeta(sigma + i t))` at precision `dps`. -/
def mag_at (P : Provider) (dps : ℤ) (sigma : ℝ) (t : Arb) : Arb :=
  P.cabs dps (P.zeta12 dps (vpoint sigma t)).1

/-- Magnitude ball of the derivative, `abs_ball(zeta'(sigma + i t))`. -/
def dmag_at (P : Provider) (dps : ℤ) (sigma : ℝ) (t : Arb) : Arb :=
  P.cabs dps (P.zeta12 dps (vpoint sigma t)).2

/-- Mutable state of one refinement run: current decimal precision
(`ctx.dps`), current `refined_t`, plus instrumentation counters (number of
provider zeta evaluations performed, number of loop iterations entered). -/
structure LoopState where
  dps : ℤ
  rt : Arb
  evals : ℕ
  iters : ℕ

/-- The step-capping of lines 165-170 of the source: `dt_f = float(dt)`
is the midpoint; when `|dt_f| > cap` the ball is rescaled by
`cap / |dt_f|`. -/
noncomputable def cap_step (cap : ℝ) (dt : Arb) : Arb :=
  if cap < |dt.mid| then Arb.smul (cap / |dt.mid|) dt else dt

/-- Halley denominator `2*(F'*F') - F*F''` with `F = zeta(s)`,
`F' = i*zeta'(s)`, `F'' = -zeta''(s)` (source lines 156-160). -/
def halley_denom (P : Provider) (dps : ℤ) (s z0 z1 : Acb) : Acb :=
  Acb.sub (Acb.smul 2 (Acb.mul (Acb.mul Acb.I z1) (Acb.mul Acb.I z1)))
    (Acb.mul z0 (Acb.neg (P.zeta2 dps s)))

/-- The raw increment of one iteration: the Newton step `Im(z0/z1)`,
overridden by the real part of the Halley increment `2*F*F' / denom` when
Halley is enabled and the denominator is not degenerate-small
(source lines 149-163). -/
noncomputable def newton_dt (P : Provider) (hal : Bool) (dps : ℤ) (s z0 z1 : Acb) : Arb :=
  if hal then
    if ball_is_small (P.cabs dps (halley_denom P dps s z0 z1)) 1e-40 = false then
      (P.cdiv dps (Acb.smul 2 (Acb.mul z0 (Acb.mul Acb.I z1))) (halley_denom P dps s z0 z1)).re
    else (P.cdiv dps z0 z1).im
  else (P.cdiv dps z0 z1).im

/-- The backtracking line search of source lines 172-186: up to `fuel`
trials at `refined_t - trial_dt`, halving `trial_dt` after each failure;
the first trial whose certified upper bound drops strictly below `u`
(the recorded `old_ub`) is accepted; if none is, `1e-12` is subtracted
from `refined_t` instead.  The source runs it with `fuel = 5`. -/
noncomputable def backtrack (P : Provider) (sigma u : ℝ) :
    ℕ → Arb → LoopState → LoopState
  | 0, _, st => { st with rt := Arb.sub st.rt (Arb.exact 1e-12) }
  | Nat.succ n, td, st =>
    if safe_upper (mag_at P st.dps sigma (Arb.sub st.rt td)) < u then
      { st with rt := Arb.sub st.rt td, evals := st.evals + 1 }
    else
      backtrack P sigma u n (Arb.mul td (Arb.exact 0.5)) { st with evals := st.evals + 1 }

/-- The Newton/Halley part of one iteration (source lines 149-186), after
the small-check and derivative guard have passed: compute the increment,
cap it by `0.3 * max(1e-12, spacing_est(float(refined_t.mid())))`, and run
the backtracking line search against `old_ub = safe_upper(a0)`. -/
noncomputable def newton_core (P : Provider) (sigma : ℝ) (hal : Bool)
    (st : LoopState) (s z0 z1 : Acb) (a0 : Arb) : Bool × LoopState :=
  (false,
    backtrack P sigma (safe_upper a0) 5
      (cap_step (0.3 * max 1e-12 (spacing_est st.rt.mid)) (newton_dt P hal st.dps s z0 z1))
      (if hal then { st with evals := st.evals + 1 } else st))

/-- One iteration of the refinement loop (source lines 127-186).  The
boolean is the `break` flag (convergence).  If the magnitude at the current
point classifies small, break.  Otherwise, if the clamped lower bound of
the derivative magnitude is exactly 0, escalate the precision by 10 digits
and recompute once; if the bound is still 0, subtract `1e-12` from
`refined_t` and skip the step.  Otherwise run the Newton/Halley step.  Note
that `a0` (hence `old_ub`) is taken from the pre-escalation evaluation, as
in the source. -/
noncomputable def newton_step (P : Provider) (sigma thr : ℝ) (hal : Bool)
    (st : LoopState) : Bool × LoopState :=
  if ball_is_small (mag_at P st.dps sigma st.rt) thr then
    (true, { st with evals := st.evals + 1, iters := st.iters + 1 })
  else if safe_lower_nonneg (dmag_at P st.dps sigma st.rt) = 0 then
    if safe_lower_nonneg (dmag_at P (st.dps + 10) sigma st.rt) = 0 then
      (false, { st with
                dps := st.dps + 10
                rt := Arb.sub st.rt (Arb.exact 1e-12)
                evals := st.evals + 2
                iters := st.iters + 1 })
    else
      newton_core P sigma hal
        { st with dps := st.dps + 10, evals := st.evals + 2, iters := st.iters + 1 }
        (vpoint sigma st.rt)
        (P.zeta12 (st.dps + 10) (vpoint sigma st.rt)).1
        (P.zeta12 (st.dps + 10) (vpoint sigma st.rt)).2
        (mag_at P st.dps sigma st.rt)
  else
    newton_core P sigma hal
      { st with evals := st.evals + 1, iters := st.iters + 1 }
      (vpoint sigma st.rt)
      (P.zeta12 st.dps (vpoint sigma st.rt)).1
      (P.zeta12 st.dps (vpoint sigma st.rt)).2
      (mag_at P st.dps sigma st.rt)

/-- The bounded refinement loop `for it in range(newton_iters)` with its
`break` on convergence. -/
noncomputable def refine_loop (P : Provider) (sigma thr : ℝ) (hal : Bool) :
    ℕ → LoopState → LoopState
  | 0, st => st
  | Nat.succ n, st =>
    if (newton_step P sigma thr hal st).1 then (newton_step P sigma thr hal st).2
    else refine_loop P sigma thr hal n (newton_step P sigma thr hal st).2

/-- State of the run after the refinement loop, starting from the input
`t` at the precision configured from `prec_bits` (one zeta evaluation has
already been spent on the initial check). -/
noncomputable def final_state (P : Provider) (sigma : ℝ) (t : Arb) (prec_bits : ℕ)
    (thr : ℝ) (iters : ℕ) (hal : Bool) : LoopState :=
  refine_loop P sigma thr hal iters
    { dps := set_precision_bits prec_bits, rt := t, evals := 1, iters := 0 }

/-- Result of one validation run with instrumentation: the returned triple
(`zeta_val`, `zero_likely`, `refined_t`) of `validate_zeta_zero`, plus the
initial and final decimal precision, the number of loop iterations
entered, the number of provider zeta evaluations, and the certified upper
bound on `|zeta|` last reported by the script (line 122 on an immediate
return, line 194 after refinement). -/
structure RunInfo where
  zeta_val : Acb
  zero_likely : Bool
  refined_t : Arb
  dps_init : ℤ
  dps_final : ℤ
  iters : ℕ
  evals : ℕ
  reported_ub : ℝ

/-- Source `validate_zeta_zero` (lines 93-201), instrumented.  The initial
precision is configured from `prec_bits`; `zeta` and `zeta'` are evaluated
at the input point; if the magnitude classifies small the run returns
immediately with `zero_likely = true` and `refined_t = t` unchanged.
Otherwise the refinement loop runs, and `zeta`, `zeta'` are re-evaluated at
the final `refined_t` to recompute `zero_likely`.  `zeta_val` is always the
evaluation at the original input point. -/
noncomputable def validate_full (P : Provider) (sigma : ℝ) (t : Arb) (prec_bits : ℕ)
    (thr : ℝ) (iters : ℕ) (hal : Bool) : RunInfo :=
  if ball_is_small (mag_at P (set_precision_bits prec_bits) sigma t) thr then
    { zeta_val := (P.zeta12 (set_precision_bits prec_bits) (vpoint sigma t)).1
      zero_likely := true
      refined_t := t
      dps_init := set_precision_bits prec_bits
      dps_final := set_precision_bits prec_bits
      iters := 0
      evals := 1
      reported_ub := safe_upper (mag_at P (set_precision_bits prec_bits) sigma t) }
  else
    { zeta_val := (P.zeta12 (set_precision_bits prec_bits) (vpoint sigma t)).1
      zero_likely := ball_is_small
        (mag_at P (final_state P sigma t prec_bits thr iters hal).dps sigma
          (final_state P sigma t prec_bits thr iters hal).rt) thr
      refined_t := (final_state P sigma t prec_bits thr iters hal).rt
      dps_init := set_precision_bits prec_bits
      dps_final := (final_state P sigma t prec_bits thr iters hal).dps
      iters := (final_state P sigma t prec_bits thr iters hal).iters
      evals := (final_state P sigma t prec_bits thr iters hal).evals + 1
      reported_ub := safe_upper
        (mag_at P (final_state P sigma t prec_bits thr iters hal).dps sigma
          (final_state P sigma t prec_bits thr iters hal).rt) }

/-- The triple `(zeta_val, zero_likely, refined_t)` actually returned by
`validate_zeta_zero`. -/
noncomputable def validate_zeta_zero (P : Provider) (sigma : ℝ) (t : Arb)
    (prec_bits : ℕ) (thr : ℝ) (iters : ℕ) (hal : Bool) : Acb × Bool × Arb :=
  ((validate_full P sigma t prec_bits thr iters hal).zeta_val,
   (validate_full P sigma t prec_bits thr iters hal).zero_likely,
   (validate_full P sigma t prec_bits thr iters hal).refined_t)

/-- The trial increment after `k` halvings in the backtracking search. -/
def bt_trial_dt (dt : Arb) : ℕ → Arb
  | 0 => dt
  | Nat.succ k => Arb.mul (bt_trial_dt dt k) (Arb.exact 0.5)

/-- The trial at index `k` improves: the certified upper bound of `|zeta|`
at `rt - trial_dt` is strictly below the recorded `old_ub`. -/
noncomputable def bt_improves (P : Provider) (sigma : ℝ) (dps : ℤ) (rt : Arb)
    (u : ℝ) (dt : Arb) (k : ℕ) : Prop :=
  safe_upper (mag_at P dps sigma (Arb.sub rt (bt_trial_dt dt k))) < u

/-- A provider whose zeta magnitude ball is the exact 0: every enclosure
classifies small (used to evaluate the immediate-return path). -/
def provC5 : Provider where
  zeta12 := fun _ _ => (⟨⟨0, 0⟩, ⟨0, 0⟩⟩, ⟨⟨0, 0⟩, ⟨0, 0⟩⟩)
  zeta2 := fun _ _ => ⟨⟨0, 0⟩, ⟨0, 0⟩⟩
  cabs := fun _ z => z.re
  cdiv := fun _ _ _ => ⟨⟨0, 0⟩, ⟨0, 0⟩⟩

/-- A provider whose zeta magnitude ball is the exact 7 everywhere: never
small for small thresholds (used to evaluate the exhausted-budget path). -/
def provC10 : Provider where
  zeta12 := fun _ _ => (⟨⟨7, 0⟩, ⟨0, 0⟩⟩, ⟨⟨0, 0⟩, ⟨0, 0⟩⟩)
  zeta2 := fun _ _ => ⟨⟨0, 0⟩, ⟨0, 0⟩⟩
  cabs := fun _ z => z.re
  cdiv := fun _ _ _ => ⟨⟨0, 0⟩, ⟨0, 0⟩⟩

/-- A provider with a non-small zeta magnitude and a derivative magnitude
ball straddling zero at every precision: every iteration takes the
degenerate-derivative path (used to evaluate precision escalation). -/
def provC3 : Provider where
  zeta12 := fun _ _ => (⟨⟨5, 0⟩, ⟨0, 0⟩⟩, ⟨⟨0, 1⟩, ⟨0, 0⟩⟩)
  zeta2 := fun _ _ => ⟨⟨0, 0⟩, ⟨0, 0⟩⟩
  cabs := fun _ z => z.re
  cdiv := fun _ _ _ => ⟨⟨0, 0⟩, ⟨0, 0⟩⟩

/-- A provider with constant zeta magnitude 1 (used to evaluate the
backtracking search on a concrete run: no trial ever improves). -/
def provC2 : Provider where
  zeta12 := fun _ _ => (⟨⟨1, 0⟩, ⟨0, 0⟩⟩, ⟨⟨0, 0⟩, ⟨0, 0⟩⟩)
  zeta2 := fun _ _ => ⟨⟨0, 0⟩, ⟨0, 0⟩⟩
  cabs := fun _ z => z.re
  cdiv := fun _ _ _ => ⟨⟨0, 0⟩, ⟨0, 0⟩⟩

/-- An adversarial but contract-conforming provider: the zeta magnitude at
`sigma + i t` is the exact ball `5 - t * 2e12` (a very steep function,
growing as `t` decreases), and the derivative magnitude ball
`[2e12 -_+ 3e12]` is a sound enclosure of the matching slope that
nevertheless straddles zero at every precision, so every iteration
degrades to the `1e-12` nudge. -/
def provC7 : Provider where
  zeta12 := fun _ z => (⟨⟨5 - z.im.mid * 2e12, 0⟩, ⟨0, 0⟩⟩, ⟨⟨2e12, 3e12⟩, ⟨0, 0⟩⟩)
  zeta2 := fun _ _ => ⟨⟨0, 0⟩, ⟨0, 0⟩⟩
  cabs := fun _ z => z.re
  cdiv := fun _ _ _ => ⟨⟨0, 0⟩, ⟨0, 0⟩⟩

/-- A provider whose zeta magnitude ball is exactly 0 (used to evaluate the
amended idempotence statement on a concrete converged run). -/
def provC7w : Provider where
  zeta12 := fun _ _ => (⟨⟨0, 0⟩, ⟨0, 0⟩⟩, ⟨⟨0, 0⟩, ⟨0, 0⟩⟩)
  zeta2 := fun _ _ => ⟨⟨0, 0⟩, ⟨0, 0⟩⟩
  cabs := fun _ z => z.re
  cdiv := fun _ _ _ => ⟨⟨0, 0⟩, ⟨0, 0⟩⟩

/-- Helper: unfolding of the boolean classifier to its defining
disjunction. -/
theorem ball_is_small_true_iff (a : Arb) (thr : ℝ) :
    ball_is_small a thr = true ↔ (a.rad ≥ |a.mid| ∨ |a.mid| + a.rad < thr) := by
  simp [ball_is_small]

/-- Helper: the classifier is false exactly when both rules fail. -/
theorem ball_is_small_false_iff (a : Arb) (thr : ℝ) :
    ball_is_small a thr = false ↔ (a.rad < |a.mid| ∧ thr ≤ |a.mid| + a.rad) := by
  simp [ball_is_small, not_or, not_lt]

/-- C1: the Enclosure Classifier `isSmall(ball, threshold)` returns true
iff `rad >= |mid|` or `|mid| + rad < threshold`; in particular it returns
true for every ball with `rad >= |mid|` regardless of the threshold, and
false for every ball (nonnegative radius) with `rad < |mid|` and
`|mid| - rad >= threshold`. -/
theorem claim_c1_ball_is_small (a : Arb) (thr : ℝ) :
    (ball_is_small a thr = true ↔ (a.rad ≥ |a.mid| ∨ |a.mid| + a.rad < thr)) ∧
    (a.rad ≥ |a.mid| → ∀ thr2 : ℝ, ball_is_small a thr2 = true) ∧
    (0 ≤ a.rad → a.rad < |a.mid| → thr ≤ |a.mid| - a.rad →
      ball_is_small a thr = false) := by
  refine ⟨ball_is_small_true_iff a thr,
    fun h thr2 => (ball_is_small_true_iff a thr2).2 (Or.inl h), ?_⟩
  intro h0 hlt hthr
  exact (ball_is_small_false_iff a thr).2 ⟨hlt, by linarith⟩

/-- Witness for C1: the ball `[1 -_+ 2]` classifies small at threshold 0
(degenerate rule), and the ball `[5 -_+ 1]` does not classify small at
threshold 3. -/
theorem claim_c1_witness :
    ball_is_small ⟨1, 2⟩ 0 = true ∧ ball_is_small ⟨5, 1⟩ 3 = false := by
  constructor
  · exact (claim_c1_ball_is_small ⟨1, 2⟩ 0).2.1 (by norm_num) 0
  · exact (claim_c1_ball_is_small ⟨5, 1⟩ 3).2.2 (by norm_num) (by norm_num) (by norm_num)

/-- C9: `estimateSpacing` is the pure function
`2*pi / max(log(max(max(t, 10)/(2*pi), e)), 1)`; equal inputs give equal
outputs, and every `t <= 10` uses the floor value 10, so the values at 0,
5 and 10 coincide. -/
theorem claim_c9_spacing_est :
    (∀ t : ℝ, spacing_est t =
      (2 * Real.pi) / max (Real.log (max (max t 10 / (2 * Real.pi)) (Real.exp 1))) 1) ∧
    (∀ t1 t2 : ℝ, t1 = t2 → spacing_est t1 = spacing_est t2) ∧
    (∀ t : ℝ, t ≤ 10 → spacing_est t = spacing_est 10) ∧
    spacing_est 0 = spacing_est 5 ∧ spacing_est 5 = spacing_est 10 := by
  have hcollapse : ∀ t : ℝ, t ≤ 10 → spacing_est t = spacing_est 10 := by
    intro t ht
    simp only [spacing_est, max_eq_right ht, max_self]
  exact ⟨fun t => rfl, fun t1 t2 h => by rw [h], hcollapse,
    (hcollapse 0 (by norm_num)).trans (hcollapse 5 (by norm_num)).symm,
    hcollapse 5 (by norm_num)⟩

/-- Witness for C9: the collapse rule evaluated at `t = 3`. -/
theorem claim_c9_witness : spacing_est 3 = spacing_est 10 :=
  claim_c9_spacing_est.2.2.1 3 (by norm_num)

/-- C4: the `zeta_val` component of the result is always the evaluation of
zeta at the original input point at the initial precision, whatever the
refinement loop does (also stated for the returned triple of
`validate_zeta_zero`). -/
theorem claim_c4_zeta_at_input (P : Provider) (sigma : ℝ) (t : Arb) (pb : ℕ)
    (thr : ℝ) (iters : ℕ) (hal : Bool) :
    (validate_full P sigma t pb thr iters hal).zeta_val
      = (P.zeta12 (set_precision_bits pb) (vpoint sigma t)).1 ∧
    (validate_zeta_zero P sigma t pb thr iters hal).1
      = (P.zeta12 (set_precision_bits pb) (vpoint sigma t)).1 := by
  have h : (validate_full P sigma t pb thr iters hal).zeta_val
      = (P.zeta12 (set_precision_bits pb) (vpoint sigma t)).1 := by
    unfold validate_full
    split <;> rfl
  exact ⟨h, h⟩

/-- Helper: the immediate-return branch of a run whose initial enclosure
classifies small. -/
theorem validate_full_small (P : Provider) (sigma : ℝ) (t : Arb) (pb : ℕ)
    (thr : ℝ) (iters : ℕ) (hal : Bool)
    (h : ball_is_small (mag_at P (set_precision_bits pb) sigma t) thr = true) :
    validate_full P sigma t pb thr iters hal =
      { zeta_val := (P.zeta12 (set_precision_bits pb) (vpoint sigma t)).1
        zero_likely := true
        refined_t := t
        dps_init := set_precision_bits pb
        dps_final := set_precision_bits pb
        iters := 0
        evals := 1
        reported_ub := safe_upper (mag_at P (set_precision_bits pb) sigma t) } := by
  unfold validate_full
  rw [if_pos h]

/-- Helper: the refinement branch of a run whose initial enclosure does
not classify small. -/
theorem validate_full_not_small (P : Provider) (sigma : ℝ) (t : Arb) (pb : ℕ)
    (thr : ℝ) (iters : ℕ) (hal : Bool)
    (h : ball_is_small (mag_at P (set_precision_bits pb) sigma t) thr = false) :
    validate_full P sigma t pb thr iters hal =
      { zeta_val := (P.zeta12 (set_precision_bits pb) (vpoint sigma t)).1
        zero_likely := ball_is_small
          (mag_at P (final_state P sigma t pb thr iters hal).dps sigma
            (final_state P sigma t pb thr iters hal).rt) thr
        refined_t := (final_state P sigma t pb thr iters hal).rt
        dps_init := set_precision_bits pb
        dps_final := (final_state P sigma t pb thr iters hal).dps
        iters := (final_state P sigma t pb thr iters hal).iters
        evals := (final_state P sigma t pb thr iters hal).evals + 1
        reported_ub := safe_upper
          (mag_at P (final_state P sigma t pb thr iters hal).dps sigma
            (final_state P sigma t pb thr iters hal).rt) } := by
  unfold validate_full
  rw [if_neg (by simp [h])]

/-- C5: when the initial magnitude enclosure classifies small, the run
returns immediately: `zero_likely = true`, `refined_t` is the input `t`
unchanged, no refinement iteration is entered, exactly one zeta evaluation
is performed, and the reported bound and returned zeta value are those of
the initial evaluation. -/
theorem claim_c5_immediate_return (P : Provider) (sigma : ℝ) (t : Arb) (pb : ℕ)
    (thr : ℝ) (iters : ℕ) (hal : Bool)
    (h : ball_is_small (mag_at P (set_precision_bits pb) sigma t) thr = true) :
    validate_full P sigma t pb thr iters hal =
      { zeta_val := (P.zeta12 (set_precision_bits pb) (vpoint sigma t)).1
        zero_likely := true
        refined_t := t
        dps_init := set_precision_bits pb
        dps_final := set_precision_bits pb
        iters := 0
        evals := 1
        reported_ub := safe_upper (mag_at P (set_precision_bits pb) sigma t) } :=
  validate_full_small P sigma t pb thr iters hal h

/-- Witness for C5: a concrete run whose initial enclosure is the exact
ball 0 returns immediately with the input `t`. -/
theorem claim_c5_witness :
    ball_is_small (mag_at provC5 (set_precision_bits 256) 0.5 (Arb.exact 14)) 1e-10
        = true ∧
    validate_full provC5 0.5 (Arb.exact 14) 256 1e-10 6 true =
      { zeta_val := (provC5.zeta12 (set_precision_bits 256) (vpoint 0.5 (Arb.exact 14))).1
        zero_likely := true
        refined_t := Arb.exact 14
        dps_init := set_precision_bits 256
        dps_final := set_precision_bits 256
        iters := 0
        evals := 1
        reported_ub := safe_upper (mag_at provC5 (set_precision_bits 256) 0.5 (Arb.exact 14)) } := by
  have h : ball_is_small (mag_at provC5 (set_precision_bits 256) 0.5 (Arb.exact 14)) 1e-10
      = true := by
    simp [mag_at, provC5, vpoint, ball_is_small]
  exact ⟨h, claim_c5_immediate_return provC5 0.5 (Arb.exact 14) 256 1e-10 6 true h⟩

/-- C10: with `maxNewtonIterations = 0` and an initial enclosure that is
not small, the run returns `refined_t` equal to the input `t` (no step and
no nudge), enters no iteration, performs exactly one additional final
evaluation (two in total), and recomputes `zero_likely` from that final
classification (which, the provider being deterministic and the point and
precision unchanged, is again false). -/
theorem claim_c10_zero_iterations (P : Provider) (sigma : ℝ) (t : Arb) (pb : ℕ)
    (thr : ℝ) (hal : Bool)
    (h : ball_is_small (mag_at P (set_precision_bits pb) sigma t) thr = false) :
    (validate_full P sigma t pb thr 0 hal).refined_t = t ∧
    (validate_full P sigma t pb thr 0 hal).iters = 0 ∧
    (validate_full P sigma t pb thr 0 hal).evals = 2 ∧
    (validate_full P sigma t pb thr 0 hal).dps_final = set_precision_bits pb ∧
    (validate_full P sigma t pb thr 0 hal).zero_likely
      = ball_is_small (mag_at P (set_precision_bits pb) sigma t) thr ∧
    (validate_full P sigma t pb thr 0 hal).zero_likely = false := by
  have hfs : final_state P sigma t pb thr 0 hal =
      { dps := set_precision_bits pb, rt := t, evals := 1, iters := 0 } := rfl
  unfold validate_full
  rw [if_neg (by simp [h])]
  refine ⟨by rw [hfs], by rw [hfs], by rw [hfs], by rw [hfs], by rw [hfs], ?_⟩
  rw [hfs]
  exact h

/-- Witness for C10: a concrete zero-iteration run on a never-small
provider keeps `t`, spends two evaluations, and reports `false`. -/
theorem claim_c10_witness :
    ball_is_small (mag_at provC10 (set_precision_bits 256) 0.5 (Arb.exact 14)) 1e-10
        = false ∧
    (validate_full provC10 0.5 (Arb.exact 14) 256 1e-10 0 true).refined_t
        = Arb.exact 14 ∧
    (validate_full provC10 0.5 (Arb.exact 14) 256 1e-10 0 true).evals = 2 ∧
    (validate_full provC10 0.5 (Arb.exact 14) 256 1e-10 0 true).zero_likely = false := by
  have h : ball_is_small (mag_at provC10 (set_precision_bits 256) 0.5 (Arb.exact 14)) 1e-10
      = false := by
    simp [mag_at, provC10, vpoint, ball_is_small]
    norm_num
  have hr := claim_c10_zero_iterations provC10 0.5 (Arb.exact 14) 256 1e-10 true h
  exact ⟨h, hr.1, hr.2.2.1, hr.2.2.2.2.2⟩

/-- Helper: the backtracking search never changes the working precision. -/
theorem backtrack_dps (P : Provider) (sigma u : ℝ) :
    ∀ (n : ℕ) (td : Arb) (st : LoopState),
      (backtrack P sigma u n td st).dps = st.dps := by
  intro n
  induction n with
  | zero => intro td st; rfl
  | succ n ih =>
    intro td st
    simp only [backtrack]
    split
    · rfl
    · exact ih _ _

/-- Helper: the backtracking search never changes the iteration counter. -/
theorem backtrack_iters (P : Provider) (sigma u : ℝ) :
    ∀ (n : ℕ) (td : Arb) (st : LoopState),
      (backtrack P sigma u n td st).iters = st.iters := by
  intro n
  induction n with
  | zero => intro td st; rfl
  | succ n ih =>
    intro td st
    simp only [backtrack]
    split
    · rfl
    · exact ih _ _

/-- Helper: the Newton/Halley core never changes the working precision. -/
theorem newton_core_dps (P : Provider) (sigma : ℝ) (hal : Bool) (st : LoopState)
    (s z0 z1 : Acb) (a0 : Arb) :
    (newton_core P sigma hal st s z0 z1 a0).2.dps = st.dps := by
  unfold newton_core
  rw [backtrack_dps]
  cases hal <;> rfl

/-- Helper: the possible precision outcomes of one iteration. -/
theorem newton_step_dps_cases (P : Provider) (sigma thr : ℝ) (hal : Bool)
    (st : LoopState) :
    (newton_step P sigma thr hal st).2.dps = st.dps ∨
    (newton_step P sigma thr hal st).2.dps = st.dps + 10 := by
  unfold newton_step
  split
  · exact Or.inl rfl
  · split
    · split
      · exact Or.inr rfl
      · exact Or.inr (newton_core_dps _ _ _ _ _ _ _ _)
    · exact Or.inl (newton_core_dps _ _ _ _ _ _ _ _)

/-- Helper: one iteration never decreases the working precision. -/
theorem newton_step_dps_mono (P : Provider) (sigma thr : ℝ) (hal : Bool)
    (st : LoopState) : st.dps ≤ (newton_step P sigma thr hal st).2.dps := by
  rcases newton_step_dps_cases P sigma thr hal st with h | h <;> omega

/-- Helper: the refinement loop never decreases the working precision. -/
theorem refine_loop_dps_mono (P : Provider) (sigma thr : ℝ) (hal : Bool) :
    ∀ (n : ℕ) (st : LoopState), st.dps ≤ (refine_loop P sigma thr hal n st).dps := by
  intro n
  induction n with
  | zero => intro st; exact le_refl _
  | succ n ih =>
    intro st
    simp only [refine_loop]
    split
    · exact newton_step_dps_mono P sigma thr hal st
    · exact le_trans (newton_step_dps_mono P sigma thr hal st) (ih _)

/-- C3: the working precision is set once at the start of a run from
`precisionBits` and never decreases (both across a whole run and across
any number of loop iterations); within one iteration it is increased by
exactly 10 decimal digits precisely when the clamped lower bound on
`|zeta'|` is exactly 0 (no escalation otherwise), with at most one such
escalation per iteration, and if the recomputed bound is still 0 the
iteration only subtracts `1e-12` from `refined_t` and skips the step. -/
theorem claim_c3_precision_monotone :
    (∀ (P : Provider) (sigma : ℝ) (t : Arb) (pb : ℕ) (thr : ℝ) (iters : ℕ) (hal : Bool),
      (validate_full P sigma t pb thr iters hal).dps_init = set_precision_bits pb ∧
      (validate_full P sigma t pb thr iters hal).dps_init
        ≤ (validate_full P sigma t pb thr iters hal).dps_final) ∧
    (∀ (P : Provider) (sigma thr : ℝ) (hal : Bool) (n : ℕ) (st : LoopState),
      st.dps ≤ (refine_loop P sigma thr hal n st).dps) ∧
    (∀ (P : Provider) (sigma thr : ℝ) (hal : Bool) (st : LoopState),
      (ball_is_small (mag_at P st.dps sigma st.rt) thr = true →
        (newton_step P sigma thr hal st).2.dps = st.dps) ∧
      (ball_is_small (mag_at P st.dps sigma st.rt) thr = false →
        safe_lower_nonneg (dmag_at P st.dps sigma st.rt) ≠ 0 →
        (newton_step P sigma thr hal st).2.dps = st.dps) ∧
      (ball_is_small (mag_at P st.dps sigma st.rt) thr = false →
        safe_lower_nonneg (dmag_at P st.dps sigma st.rt) = 0 →
        (newton_step P sigma thr hal st).2.dps = st.dps + 10) ∧
      (ball_is_small (mag_at P st.dps sigma st.rt) thr = false →
        safe_lower_nonneg (dmag_at P st.dps sigma st.rt) = 0 →
        safe_lower_nonneg (dmag_at P (st.dps + 10) sigma st.rt) = 0 →
        newton_step P sigma thr hal st = (false, { st with dps := st.dps + 10, rt := Arb.sub st.rt (Arb.exact 1e-12), evals := st.evals + 2, iters := st.iters + 1 }))) := by
  refine ⟨?_, refine_loop_dps_mono, ?_⟩
  · intro P sigma t pb thr iters hal
    unfold validate_full
    split
    · exact ⟨rfl, le_refl _⟩
    · exact ⟨rfl, refine_loop_dps_mono P sigma thr hal iters _⟩
  · intro P sigma thr hal st
    refine ⟨?_, ?_, ?_, ?_⟩
    · intro h1
      unfold newton_step
      rw [if_pos h1]
    · intro h1 h2
      unfold newton_step
      rw [if_neg (by simp [h1]), if_neg h2]
      exact newton_core_dps _ _ _ _ _ _ _ _
    · intro h1 h2
      unfold newton_step
      rw [if_neg (by simp [h1]), if_pos h2]
      split
      · rfl
      · exact newton_core_dps _ _ _ _ _ _ _ _
    · intro h1 h2 h3
      unfold newton_step
      rw [if_neg (by simp [h1]), if_pos h2, if_pos h3]

/-- Witness for C3: on a concrete degenerate-derivative run the iteration
escalates the precision by exactly 10 digits. -/
theorem claim_c3_witness :
    ball_is_small (mag_at provC3 0 0 (Arb.exact 0)) 1e-10 = false ∧
    safe_lower_nonneg (dmag_at provC3 0 0 (Arb.exact 0)) = 0 ∧
    (newton_step provC3 0 1e-10 false ⟨0, Arb.exact 0, 1, 0⟩).2.dps = 0 + 10 := by
  have h1 : ball_is_small (mag_at provC3 0 0 (Arb.exact 0)) 1e-10 = false := by
    simp [mag_at, provC3, vpoint, ball_is_small]
    norm_num
  have h2 : safe_lower_nonneg (dmag_at provC3 0 0 (Arb.exact 0)) = 0 := by
    simp [dmag_at, provC3, vpoint, safe_lower_nonneg]
  exact ⟨h1, h2,
    (claim_c3_precision_monotone.2.2 provC3 0 1e-10 false ⟨0, Arb.exact 0, 1, 0⟩).2.2.1 h1 h2⟩

/-- Helper: halving before the search equals shifting the trial index. -/
theorem bt_trial_dt_shift (dt : Arb) :
    ∀ k : ℕ, bt_trial_dt (Arb.mul dt (Arb.exact 0.5)) k = bt_trial_dt dt (k + 1) := by
  intro k
  induction k with
  | zero => rfl
  | succ k ih =>
    show Arb.mul (bt_trial_dt (Arb.mul dt (Arb.exact 0.5)) k) (Arb.exact 0.5)
        = Arb.mul (bt_trial_dt dt (k + 1)) (Arb.exact 0.5)
    rw [ih]

/-- Helper: the improvement predicate under one pre-halving. -/
theorem bt_improves_shift (P : Provider) (sigma : ℝ) (dps : ℤ) (rt : Arb)
    (u : ℝ) (td : Arb) (k : ℕ) :
    bt_improves P sigma dps rt u (Arb.mul td (Arb.exact 0.5)) k ↔
      bt_improves P sigma dps rt u td (k + 1) := by
  unfold bt_improves
  rw [bt_trial_dt_shift]

/-- Helper: full characterization of the backtracking search at any fuel:
either some trial improves and the first improving trial is accepted
(spending one evaluation per trial tried), or no trial improves and
`1e-12` is subtracted, spending all `n` evaluations. -/
theorem backtrack_spec_aux (P : Provider) (sigma u : ℝ) :
    ∀ (n : ℕ) (td : Arb) (st : LoopState),
      (∃ k, k < n ∧ bt_improves P sigma st.dps st.rt u td k ∧
        (∀ j, j < k → ¬ bt_improves P sigma st.dps st.rt u td j) ∧
        (backtrack P sigma u n td st).rt = Arb.sub st.rt (bt_trial_dt td k) ∧
        (backtrack P sigma u n td st).evals = st.evals + (k + 1)) ∨
      ((∀ k, k < n → ¬ bt_improves P sigma st.dps st.rt u td k) ∧
        (backtrack P sigma u n td st).rt = Arb.sub st.rt (Arb.exact 1e-12) ∧
        (backtrack P sigma u n td st).evals = st.evals + n) := by
  intro n
  induction n with
  | zero =>
    intro td st
    right
    exact ⟨fun k hk => absurd hk (Nat.not_lt_zero k), rfl, rfl⟩
  | succ n ih =>
    intro td st
    by_cases h0 : safe_upper (mag_at P st.dps sigma (Arb.sub st.rt td)) < u
    · left
      refine ⟨0, Nat.succ_pos n, h0, fun j hj => absurd hj (Nat.not_lt_zero j), ?_, ?_⟩
      · simp only [backtrack]
        rw [if_pos h0]
        rfl
      · simp only [backtrack]
        rw [if_pos h0]
    · have hrec := ih (Arb.mul td (Arb.exact 0.5)) { st with evals := st.evals + 1 }
      have hunf : backtrack P sigma u (n + 1) td st =
          backtrack P sigma u n (Arb.mul td (Arb.exact 0.5))
            { st with evals := st.evals + 1 } := by
        simp only [backtrack]
        rw [if_neg h0]
      rcases hrec with ⟨k, hk, himp, hmin, hrt, hev⟩ | ⟨hnone, hrt, hev⟩
      · left
        refine ⟨k + 1, Nat.succ_lt_succ hk, ?_, ?_, ?_, ?_⟩
        · exact (bt_improves_shift P sigma st.dps st.rt u td k).1 himp
        · intro j hj
          match j with
          | 0 => exact h0
          | Nat.succ j =>
            exact fun hc => hmin j (Nat.lt_of_succ_lt_succ hj)
              ((bt_improves_shift P sigma st.dps st.rt u td j).2 hc)
        · rw [hunf, hrt, bt_trial_dt_shift]
        · rw [hunf, hev]
          show st.evals + 1 + (k + 1) = st.evals + (k + 1 + 1)
          omega
      · right
        refine ⟨?_, ?_, ?_⟩
        · intro k hk
          match k with
          | 0 => exact h0
          | Nat.succ k =>
            exact fun hc => hnone k (Nat.lt_of_succ_lt_succ hk)
              ((bt_improves_shift P sigma st.dps st.rt u td k).2 hc)
        · rw [hunf, hrt]
        · rw [hunf, hev]
          show st.evals + 1 + n = st.evals + (n + 1)
          omega

/-- C2: the backtracking line search of each refining iteration tries up
to 5 halvings of the candidate step, evaluating zeta at
`refined_t - trial_dt` each time; `refined_t` is replaced by the trial
point only on the first trial whose certified upper bound is strictly
below the recorded `old_ub`, and when none of the 5 trials improves the
bound exactly `1e-12` is subtracted from `refined_t` (so the nudge case
always changes `refined_t`); the search is a total function (no error) and
never changes the precision or iteration counters. -/
theorem claim_c2_backtracking_search (P : Provider) (sigma u : ℝ) (dt : Arb)
    (st : LoopState) :
    ((∃ k, k < 5 ∧ bt_improves P sigma st.dps st.rt u dt k ∧
        (∀ j, j < k → ¬ bt_improves P sigma st.dps st.rt u dt j) ∧
        (backtrack P sigma u 5 dt st).rt = Arb.sub st.rt (bt_trial_dt dt k) ∧
        (backtrack P sigma u 5 dt st).evals = st.evals + (k + 1)) ∨
      ((∀ k, k < 5 → ¬ bt_improves P sigma st.dps st.rt u dt k) ∧
        (backtrack P sigma u 5 dt st).rt = Arb.sub st.rt (Arb.exact 1e-12) ∧
        (backtrack P sigma u 5 dt st).rt.mid = st.rt.mid - 1e-12 ∧
        (backtrack P sigma u 5 dt st).rt.rad = st.rt.rad ∧
        (backtrack P sigma u 5 dt st).rt ≠ st.rt ∧
        (backtrack P sigma u 5 dt st).evals = st.evals + 5)) ∧
    (backtrack P sigma u 5 dt st).dps = st.dps ∧
    (backtrack P sigma u 5 dt st).iters = st.iters := by
  refine ⟨?_, backtrack_dps P sigma u 5 dt st, backtrack_iters P sigma u 5 dt st⟩
  rcases backtrack_spec_aux P sigma u 5 dt st with ⟨k, hk, himp, hmin, hrt, hev⟩ |
    ⟨hnone, hrt, hev⟩
  · exact Or.inl ⟨k, hk, himp, hmin, hrt, hev⟩
  · refine Or.inr ⟨hnone, hrt, ?_, ?_, ?_, hev⟩
    · rw [hrt]
      rfl
    · rw [hrt]
      simp [Arb.sub, Arb.exact]
    · rw [hrt]
      intro hc
      have hm := congrArg Arb.mid hc
      simp only [Arb.sub, Arb.exact] at hm
      norm_num at hm

/-- Witness for C2: on a provider with constant zeta magnitude 1 and a
recorded bound of 1/2, no trial improves, so exactly `1e-12` is subtracted
from `refined_t`. -/
theorem claim_c2_witness :
    (backtrack provC2 0 (1 / 2) 5 (Arb.exact 1) ⟨0, Arb.exact 0, 1, 0⟩).rt.mid
      = 0 - 1e-12 := by
  rcases (claim_c2_backtracking_search provC2 0 (1 / 2) (Arb.exact 1)
      ⟨0, Arb.exact 0, 1, 0⟩).1 with ⟨k, hk, himp, hmin, hrt, hev⟩ | ⟨hnone, hrt, hmid, h⟩
  · exfalso
    simp only [bt_improves, mag_at, provC2, vpoint, safe_upper] at himp
    norm_num at himp
  · exact hmid

/-- Helper: the cap expression of an iteration is strictly positive. -/
theorem cap_pos (t_f : ℝ) : 0 < 0.3 * max 1e-12 (spacing_est t_f) := by
  have h := le_max_left (1e-12 : ℝ) (spacing_est t_f)
  nlinarith

/-- C6: after the capping step of each refining iteration, the magnitude
of the increment midpoint (`float(dt)` in the source) is at most
`cap = 0.3 * max(1e-12, estimateSpacing(t))`, and whenever the raw
increment exceeds the cap it is rescaled so that its magnitude equals the
cap exactly. -/
theorem claim_c6_step_capping (t_f : ℝ) (dt : Arb) :
    |(cap_step (0.3 * max 1e-12 (spacing_est t_f)) dt).mid|
        ≤ 0.3 * max 1e-12 (spacing_est t_f) ∧
    (0.3 * max 1e-12 (spacing_est t_f) < |dt.mid| →
      |(cap_step (0.3 * max 1e-12 (spacing_est t_f)) dt).mid|
        = 0.3 * max 1e-12 (spacing_est t_f)) := by
  have hcpos := cap_pos t_f
  unfold cap_step
  by_cases h : 0.3 * max 1e-12 (spacing_est t_f) < |dt.mid|
  · rw [if_pos h]
    have hmpos : 0 < |dt.mid| := lt_trans hcpos h
    have heq : |(Arb.smul (0.3 * max 1e-12 (spacing_est t_f) / |dt.mid|) dt).mid|
        = 0.3 * max 1e-12 (spacing_est t_f) := by
      show |0.3 * max 1e-12 (spacing_est t_f) / |dt.mid| * dt.mid|
          = 0.3 * max 1e-12 (spacing_est t_f)
      rw [abs_mul, abs_div, abs_abs, abs_of_pos hcpos, div_mul_cancel₀ _ hmpos.ne']
    exact ⟨le_of_eq heq, fun _ => heq⟩
  · rw [if_neg h]
    exact ⟨le_of_not_lt h, fun hc => absurd hc h⟩

/-- Helper: the spacing estimate never exceeds `2*pi` (its denominator is
at least 1). -/
theorem spacing_est_le (t_f : ℝ) : spacing_est t_f ≤ 2 * Real.pi := by
  unfold spacing_est
  exact div_le_self (by positivity) (le_max_right _ 1)

/-- Witness for C6: at `t = 0` the cap is below 2, so the raw increment
10 is rescaled to exactly the cap. -/
theorem claim_c6_witness :
    0.3 * max 1e-12 (spacing_est 0) < |(Arb.mk 10 0).mid| ∧
    |(cap_step (0.3 * max 1e-12 (spacing_est 0)) (Arb.mk 10 0)).mid|
      = 0.3 * max 1e-12 (spacing_est 0) := by
  have hmax : max (1e-12 : ℝ) (spacing_est 0) ≤ 6.3 := by
    have hpi := Real.pi_lt_d2
    have hsp := spacing_est_le 0
    refine max_le (by norm_num) ?_
    nlinarith
  have h : 0.3 * max 1e-12 (spacing_est 0) < |(Arb.mk 10 0).mid| := by
    have : |(Arb.mk 10 0).mid| = 10 := by
      show |(10 : ℝ)| = 10
      norm_num
    rw [this]
    nlinarith
  exact ⟨h, (claim_c6_step_capping 0 (Arb.mk 10 0)).2 h⟩

/-- Helper: rational lower bound for `log10(2)`, from `10^59 < 2^196`. -/
theorem logb_ten_two_gt : (59 : ℝ) / 196 < Real.logb 10 2 := by
  have hlog10 : (0 : ℝ) < Real.log 10 := Real.log_pos (by norm_num)
  have hpow : (10 : ℝ) ^ (59 : ℕ) < 2 ^ (196 : ℕ) := by norm_num
  have hl := Real.log_lt_log (by positivity) hpow
  rw [Real.log_pow, Real.log_pow] at hl
  rw [Real.logb, div_lt_div_iff₀ (by norm_num) hlog10]
  push_cast at hl
  nlinarith

/-- Helper: rational upper bound for `log10(2)`, from `2^485 < 10^146`. -/
theorem logb_ten_two_lt : Real.logb 10 2 < (146 : ℝ) / 485 := by
  have hlog10 : (0 : ℝ) < Real.log 10 := Real.log_pos (by norm_num)
  have hpow : (2 : ℝ) ^ (485 : ℕ) < 10 ^ (146 : ℕ) := by norm_num
  have hl := Real.log_lt_log (by positivity) hpow
  rw [Real.log_pow, Real.log_pow] at hl
  rw [Real.logb, div_lt_div_iff₀ hlog10 (by norm_num)]
  push_cast at hl
  nlinarith

/-- Helper: the ceiling of `bits * log10(2)` is pinned down by the two
rational bounds on `log10(2)`. -/
theorem ceil_mul_logb_eq (b : ℕ) (k : ℤ)
    (h1 : ((k : ℝ) - 1) * 196 < (b : ℝ) * 59)
    (h2 : (b : ℝ) * 146 ≤ (k : ℝ) * 485) :
    ⌈(b : ℝ) * Real.logb 10 2⌉ = k := by
  have hgt := logb_ten_two_gt
  have hlt := logb_ten_two_lt
  have hb : (0 : ℝ) ≤ (b : ℝ) := Nat.cast_nonneg b
  have hlow : (b : ℝ) * (59 / 196) ≤ (b : ℝ) * Real.logb 10 2 :=
    mul_le_mul_of_nonneg_left hgt.le hb
  have hhigh : (b : ℝ) * Real.logb 10 2 ≤ (b : ℝ) * (146 / 485) :=
    mul_le_mul_of_nonneg_left hlt.le hb
  rw [Int.ceil_eq_iff]
  constructor
  · nlinarith
  · nlinarith

/-- C8: `setPrecisionBits(bits)` returns `ceil(bits * log10(2)) + 20` for
every `bits`, with the concrete values 21, 23, 40, 98, 322 at
`bits = 1, 8, 64, 256, 1000`, and every validation run configures the
provider's decimal precision to that returned value (modelled as the
initial precision threaded into the provider calls). -/
theorem claim_c8_set_precision_bits :
    (∀ bits : ℕ, set_precision_bits bits = ⌈(bits : ℝ) * Real.logb 10 2⌉ + 20) ∧
    set_precision_bits 1 = 21 ∧ set_precision_bits 8 = 23 ∧
    set_precision_bits 64 = 40 ∧ set_precision_bits 256 = 98 ∧
    set_precision_bits 1000 = 322 ∧
    (∀ (P : Provider) (sigma : ℝ) (t : Arb) (pb : ℕ) (thr : ℝ) (iters : ℕ) (hal : Bool),
      (validate_full P sigma t pb thr iters hal).dps_init = set_precision_bits pb) := by
  have hv : ∀ (b : ℕ) (k : ℤ), ((k : ℝ) - 1) * 196 < (b : ℝ) * 59 →
      (b : ℝ) * 146 ≤ (k : ℝ) * 485 → set_precision_bits b = k + 20 := by
    intro b k h1 h2
    unfold set_precision_bits
    rw [ceil_mul_logb_eq b k h1 h2]
  refine ⟨fun bits => rfl, ?_, ?_, ?_, ?_, ?_, ?_⟩
  · have := hv 1 1 (by norm_num) (by norm_num)
    omega
  · have := hv 8 3 (by norm_num) (by norm_num)
    omega
  · have := hv 64 20 (by norm_num) (by norm_num)
    omega
  · have := hv 256 78 (by norm_num) (by norm_num)
    omega
  · have := hv 1000 302 (by norm_num) (by norm_num)
    omega
  · intro P sigma t pb thr iters hal
    unfold validate_full
    split <;> rfl

/-- Helper: the adversarial provider's zeta magnitude ball at any point. -/
theorem provC7_mag (d : ℤ) (sigma : ℝ) (t : Arb) :
    mag_at provC7 d sigma t = ⟨5 - t.mid * 2e12, 0⟩ := rfl

/-- Helper: the adversarial provider's derivative magnitude ball. -/
theorem provC7_dmag (d : ℤ) (sigma : ℝ) (t : Arb) :
    dmag_at provC7 d sigma t = ⟨2e12, 3e12⟩ := rfl

/-- Helper: an exact ball with midpoint at least 1 never classifies small
at threshold `1e-10`. -/
theorem small_false_of_one_le (c : ℝ) (h : 1 ≤ c) :
    ball_is_small (⟨c, 0⟩ : Arb) 1e-10 = false := by
  rw [ball_is_small_false_iff]
  constructor
  · show (0 : ℝ) < |c|
    rw [abs_of_pos (by linarith)]
    linarith
  · show (1e-10 : ℝ) ≤ |c| + 0
    rw [abs_of_pos (by linarith)]
    linarith

/-- Helper: the ball `[2e12 -_+ 3e12]` has clamped lower bound 0. -/
theorem lb_zero_of_straddle : safe_lower_nonneg (⟨2e12, 3e12⟩ : Arb) = 0 := by
  simp only [safe_lower_nonneg, max_eq_left_iff]
  norm_num

/-- Helper: every iteration of the adversarial provider takes the
degenerate-derivative path and only escalates and nudges. -/
theorem provC7_step (st : LoopState) (h : (1 : ℝ) ≤ 5 - st.rt.mid * 2e12) :
    newton_step provC7 0 1e-10 false st =
      (false, { st with dps := st.dps + 10, rt := Arb.sub st.rt (Arb.exact 1e-12), evals := st.evals + 2, iters := st.iters + 1 }) := by
  unfold newton_step
  rw [provC7_mag, provC7_dmag, provC7_dmag,
    if_neg (by simp [small_false_of_one_le _ h]), if_pos lb_zero_of_straddle,
    if_pos lb_zero_of_straddle]

/-- Helper: a full one-iteration run of the adversarial provider: the
returned `refined_t` is the input nudged by `1e-12`, and the reported
final upper bound is the magnitude at the nudged point. -/
theorem provC7_run (t : Arb) (h : (1 : ℝ) ≤ 5 - t.mid * 2e12) :
    (validate_full provC7 0 t 256 1e-10 1 false).refined_t
        = Arb.sub t (Arb.exact 1e-12) ∧
    (validate_full provC7 0 t 256 1e-10 1 false).reported_ub
        = 5 - (t.mid - 1e-12) * 2e12 := by
  have hini : ball_is_small (mag_at provC7 (set_precision_bits 256) 0 t) 1e-10
      = false := by
    rw [provC7_mag]
    exact small_false_of_one_le _ h
  have hstep := provC7_step ⟨set_precision_bits 256, t, 1, 0⟩ h
  have hfs : final_state provC7 0 t 256 1e-10 1 false =
      { dps := set_precision_bits 256 + 10, rt := Arb.sub t (Arb.exact 1e-12), evals := 3, iters := 1 } := by
    unfold final_state
    simp only [refine_loop]
    rw [hstep]
    rfl
  have he := validate_full_not_small provC7 0 t 256 1e-10 1 false hini
  rw [he, hfs]
  refine ⟨rfl, ?_⟩
  rw [provC7_mag]
  show 5 - (t.mid - 1e-12) * 2e12 + 0 = 5 - (t.mid - 1e-12) * 2e12
  ring

/-- C7 counterexample: for the adversarial (but interface-conforming)
provider `provC7`, re-running `validate_zeta_zero` on the `refined_t`
returned by a first one-iteration run, with the same configuration,
reports a strictly larger certified upper bound on `|zeta|` (9 instead of
7), so the claimed idempotence inequality fails. -/
theorem claim_c7_counterexample :
    ¬ ((validate_full provC7 0
          ((validate_full provC7 0 (Arb.mk 0 0) 256 1e-10 1 false).refined_t)
          256 1e-10 1 false).reported_ub
        ≤ (validate_full provC7 0 (Arb.mk 0 0) 256 1e-10 1 false).reported_ub) := by
  have h1 : (1 : ℝ) ≤ 5 - (Arb.mk 0 0).mid * 2e12 := by
    show (1 : ℝ) ≤ 5 - 0 * 2e12
    norm_num
  obtain ⟨hrt1, hub1⟩ := provC7_run (Arb.mk 0 0) h1
  have h2 : (1 : ℝ) ≤ 5 - (Arb.sub (Arb.mk 0 0) (Arb.exact 1e-12)).mid * 2e12 := by
    show (1 : ℝ) ≤ 5 - (0 - 1e-12) * 2e12
    norm_num
  obtain ⟨hrt2, hub2⟩ := provC7_run (Arb.sub (Arb.mk 0 0) (Arb.exact 1e-12)) h2
  rw [hrt1, hub1, hub2]
  show ¬ (5 - ((Arb.mk 0 0).mid - 1e-12 - 1e-12) * 2e12
      ≤ 5 - ((Arb.mk 0 0).mid - 1e-12) * 2e12)
  norm_num

/-- C7 amended: if the first run ends with `zero_likely = true` and did
not escalate the working precision, then re-running `validateZero` on its
returned `refined_t` with the same configuration returns immediately and
reports exactly the first run's final certified upper bound (in
particular, not a worse one).  Without these conditions the second
reported bound can be strictly worse, as the counterexample shows. -/
theorem claim_c7_idempotence_amended (P : Provider) (sigma : ℝ) (t : Arb) (pb : ℕ)
    (thr : ℝ) (iters : ℕ) (hal : Bool)
    (hdps : (validate_full P sigma t pb thr iters hal).dps_final
      = (validate_full P sigma t pb thr iters hal).dps_init)
    (hzl : (validate_full P sigma t pb thr iters hal).zero_likely = true) :
    (validate_full P sigma ((validate_full P sigma t pb thr iters hal).refined_t)
        pb thr iters hal).reported_ub
      = (validate_full P sigma t pb thr iters hal).reported_ub ∧
    (validate_full P sigma ((validate_full P sigma t pb thr iters hal).refined_t)
        pb thr iters hal).reported_ub
      ≤ (validate_full P sigma t pb thr iters hal).reported_ub := by
  by_cases hini : ball_is_small (mag_at P (set_precision_bits pb) sigma t) thr = true
  · have e1 := validate_full_small P sigma t pb thr iters hal hini
    rw [e1]
    dsimp only
    rw [e1]
    exact ⟨rfl, le_refl _⟩
  · have hini' : ball_is_small (mag_at P (set_precision_bits pb) sigma t) thr
        = false := by
      cases hb : ball_is_small (mag_at P (set_precision_bits pb) sigma t) thr
      · rfl
      · exact absurd hb hini
    have e1 := validate_full_not_small P sigma t pb thr iters hal hini'
    rw [e1] at hdps hzl
    dsimp only at hdps hzl
    rw [e1]
    dsimp only
    have hini2 : ball_is_small
        (mag_at P (set_precision_bits pb) sigma
          (final_state P sigma t pb thr iters hal).rt) thr = true := by
      rw [← hdps]
      exact hzl
    have e2 := validate_full_small P sigma
      (final_state P sigma t pb thr iters hal).rt pb thr iters hal hini2
    rw [e2]
    dsimp only
    rw [hdps]
    exact ⟨rfl, le_refl _⟩

/-- Witness for the amended C7: on a provider whose zeta ball is exactly
0, the first run converges immediately without escalation, and the second
run reports a bound no worse than the first. -/
theorem claim_c7_witness :
    (validate_full provC7w 0.5 (Arb.exact 14) 256 1e-10 3 true).dps_final
        = (validate_full provC7w 0.5 (Arb.exact 14) 256 1e-10 3 true).dps_init ∧
    (validate_full provC7w 0.5 (Arb.exact 14) 256 1e-10 3 true).zero_likely = true ∧
    (validate_full provC7w 0.5
        ((validate_full provC7w 0.5 (Arb.exact 14) 256 1e-10 3 true).refined_t)
        256 1e-10 3 true).reported_ub
      ≤ (validate_full provC7w 0.5 (Arb.exact 14) 256 1e-10 3 true).reported_ub := by
  have hini : ball_is_small
      (mag_at provC7w (set_precision_bits 256) 0.5 (Arb.exact 14)) 1e-10 = true := by
    simp [mag_at, provC7w, vpoint, ball_is_small]
  have e1 := validate_full_small provC7w 0.5 (Arb.exact 14) 256 1e-10 3 true hini
  have h1 : (validate_full provC7w 0.5 (Arb.exact 14) 256 1e-10 3 true).dps_final
      = (validate_full provC7w 0.5 (Arb.exact 14) 256 1e-10 3 true).dps_init := by
    rw [e1]
  have h2 : (validate_full provC7w 0.5 (Arb.exact 14) 256 1e-10 3 true).zero_likely
      = true := by
    rw [e1]
  exact ⟨h1, h2,
    (claim_c7_idempotence_amended provC7w 0.5 (Arb.exact 14) 256 1e-10 3 true h1 h2).2⟩
